import Mathlib

/-!
Verification development for the log-interleaver repository.

This file gives a shallow embedding, in Lean 4, of the core of the
log-interleaver program: the per-line timestamp parsers
(pkg/timestamp), the per-file line parser and uptime resolver
(internal/parser), and the interleaver with auto-alignment and the
final merge (internal/interleaver).  Each definition is a direct
translation of the corresponding Go function; Go machine integers are
modelled as Int, Go float64 values as exact rationals, Go time.Time as
Unix nanoseconds (Int), and Go maps as association lists iterated in
insertion order.  The wall-clock year read by ParseAbsolute
(time.Now().Year()) is made an explicit parameter of the model, and
float-to-int conversions use truncation toward zero, as in Go.
-/

namespace LogInterleaver

/-- Go conversion of a numeric value to an integer truncates toward zero;
this is that conversion on our rational model of float64. -/
def goTrunc (q : ℚ) : Int := if 0 ≤ q then ⌊q⌋ else ⌈q⌉

/-- Go isLeap: leap years in the proleptic Gregorian calendar. -/
def isLeapYear (y : Int) : Bool :=
  y.emod 4 = 0 && (y.emod 100 ≠ 0 || y.emod 400 = 0)

/-- Days from January 1 of year 1 to January 1 of year y
(proleptic Gregorian), as computed by Go's date arithmetic. -/
def daysBeforeYear (y : Int) : Int :=
  365 * (y - 1) + (y - 1).fdiv 4 - (y - 1).fdiv 100 + (y - 1).fdiv 400

/-- Cumulative days before each month in a non-leap year
(Go's daysBefore table). -/
def daysBeforeMonth (m : Int) : Int :=
  [0, 31, 59, 90, 120, 151, 181, 212, 243, 273, 304, 334].getD (m.toNat - 1) 0

/-- Go's norm helper from time.Date: adjust hi and lo so that
0 <= lo < base, preserving hi * base + lo. -/
def normHiLo (hi lo base : Int) : Int × Int :=
  (hi + lo.fdiv base, lo.emod base)

/-- Go time.Date(year, month, day, hour, min, sec, nsec, time.UTC),
returned as Unix nanoseconds.  Follows Go's normalization cascade and
day-count arithmetic (719162 days from year 1 to the Unix epoch). -/
def goDate (year month day hour min sec nsec : Int) : Int :=
  let p := normHiLo year (month - 1) 12
  let year := p.1
  let month := p.2 + 1
  let q1 := normHiLo sec nsec 1000000000
  let sec := q1.1
  let nsec := q1.2
  let q2 := normHiLo min sec 60
  let min := q2.1
  let sec := q2.2
  let q3 := normHiLo hour min 60
  let hour := q3.1
  let min := q3.2
  let q4 := normHiLo day hour 24
  let day := q4.1
  let hour := q4.2
  let d := daysBeforeYear year + daysBeforeMonth month +
    (if isLeapYear year && month ≥ 3 then 1 else 0) + (day - 1)
  ((d - 719162) * 86400 + hour * 3600 + min * 60 + sec) * 1000000000 + nsec

/-- Timestamp type tags, as in pkg/timestamp (TypeUnknown, TypeAbsolute,
TypeUptime, TypeLinux). -/
inductive TsType where
  | unknown
  | absolute
  | uptime
  | linux
deriving DecidableEq

/-- pkg/timestamp Timestamp: an instant (Unix nanoseconds), its type tag,
and, for resolved uptime lines, the raw uptime value in seconds. -/
structure Timestamp where
  time : Int
  type : TsType
  uptimeSec : ℚ
deriving DecidableEq

/-- internal/parser LogLine: one record per input text line. -/
structure LogLine where
  originalLine : String
  tag : String
  timestamp : Option Timestamp
  uptimeSec : ℚ
  lineNumber : Nat
deriving DecidableEq

/-- Decimal digit test, as the regexp class \d. -/
def isDigitCh (c : Char) : Bool := '0' ≤ c && c ≤ '9'

/-- Whitespace test, as the regexp class \s in Go (tab, newline,
form feed, carriage return, space). -/
def isSpaceCh (c : Char) : Bool :=
  c = '\t' || c = '\n' || c = Char.ofNat 12 || c = '\r' || c = ' '

/-- Read exactly n decimal digits, returning their value and the rest of
the input (regexp \d{n}). -/
def readDigitsExact : Nat → List Char → Nat → Option (Nat × List Char)
  | 0, cs, acc => some (acc, cs)
  | _ + 1, [], _ => none
  | n + 1, c :: cs, acc =>
    if isDigitCh c then readDigitsExact n cs (acc * 10 + (c.toNat - 48)) else none

/-- Read one or more decimal digits greedily (regexp \d+), returning their
value, how many digits were read, and the rest of the input. -/
def readDigits1 : List Char → Nat → Nat → Option (Nat × Nat × List Char)
  | [], 0, _ => none
  | [], k + 1, acc => some (acc, k + 1, [])
  | c :: cs, k, acc =>
    if isDigitCh c then readDigits1 cs (k + 1) (acc * 10 + (c.toNat - 48))
    else if k = 0 then none else some (acc, k, c :: cs)

/-- Skip one or more whitespace characters greedily (regexp \s+). -/
def skipSpaces1 : List Char → Option (List Char)
  | [] => none
  | c :: cs =>
    if isSpaceCh c then some (cs.dropWhile isSpaceCh) else none

/-- Consume one expected character. -/
def expectCh (c : Char) : List Char → Option (List Char)
  | [] => none
  | x :: xs => if x = c then some xs else none

/-- pkg/timestamp ParseAbsolute: anchored match of
[IEWD](dddd)\s+(dd):(dd):(dd).(dddddd); the 4-digit group is month then
day, and the year is supplied by the caller (the Go code reads
time.Now().Year(), which this model makes an explicit parameter). -/
def ParseAbsolute (year : Int) (s : String) : Option Timestamp :=
  match s.data with
  | [] => none
  | c :: cs =>
    if c = 'I' || c = 'E' || c = 'W' || c = 'D' then
      (do
        let p1 ← readDigitsExact 2 cs 0
        let p2 ← readDigitsExact 2 p1.2 0
        let r1 ← skipSpaces1 p2.2
        let p3 ← readDigitsExact 2 r1 0
        let r2 ← expectCh ':' p3.2
        let p4 ← readDigitsExact 2 r2 0
        let r3 ← expectCh ':' p4.2
        let p5 ← readDigitsExact 2 r3 0
        let r4 ← expectCh '.' p5.2
        let p6 ← readDigitsExact 6 r4 0
        pure { time := goDate year p1.1 p2.1 p3.1 p4.1 p5.1 (p6.1 * 1000),
               type := TsType.absolute, uptimeSec := 0 })
    else none

/-- pkg/timestamp ParseFullDateTime: anchored match of
(dddd)-(dd)-(dd)\s+(dd):(dd):(dd), interpreted in UTC. -/
def ParseFullDateTime (s : String) : Option Timestamp :=
  (do
    let p1 ← readDigitsExact 4 s.data 0
    let r1 ← expectCh '-' p1.2
    let p2 ← readDigitsExact 2 r1 0
    let r2 ← expectCh '-' p2.2
    let p3 ← readDigitsExact 2 r2 0
    let r3 ← skipSpaces1 p3.2
    let p4 ← readDigitsExact 2 r3 0
    let r4 ← expectCh ':' p4.2
    let p5 ← readDigitsExact 2 r4 0
    let r5 ← expectCh ':' p5.2
    let p6 ← readDigitsExact 2 r5 0
    pure { time := goDate (p1.1 : Int) p2.1 p3.1 p4.1 p5.1 p6.1 0,
           type := TsType.absolute, uptimeSec := 0 })

/-- One attempt of the unanchored pattern \[(\d+)\]: at the current
position. -/
def matchLinuxAt (cs : List Char) : Option Nat :=
  (do
    let r1 ← expectCh '[' cs
    let p ← readDigits1 r1 0 0
    let r2 ← expectCh ']' p.2.2
    let _ ← expectCh ':' r2
    pure p.1)

/-- Leftmost unanchored search for \[(\d+)\]:. -/
def scanLinux : List Char → Option Nat
  | [] => none
  | c :: cs =>
    match matchLinuxAt (c :: cs) with
    | some v => some v
    | none => scanLinux cs

/-- pkg/timestamp ParseLinux: a bracketed integer before a colon is
interpreted as Unix epoch seconds; the resulting timestamp carries
TypeLinux (the 64-bit overflow failure of strconv.ParseInt is not
modelled — all claim inputs are small). -/
def ParseLinux (s : String) : Option Timestamp :=
  match scanLinux s.data with
  | some unix => some { time := (unix : Int) * 1000000000,
                        type := TsType.linux, uptimeSec := 0 }
  | none => none

/-- One attempt of the unanchored pattern \[(\d+)\.(\d+)\]: at the
current position, returning sec + msec/1000 as in Go's ParseUptime. -/
def matchUptimeAt (cs : List Char) : Option ℚ :=
  (do
    let r1 ← expectCh '[' cs
    let p1 ← readDigits1 r1 0 0
    let r2 ← expectCh '.' p1.2.2
    let p2 ← readDigits1 r2 0 0
    let r3 ← expectCh ']' p2.2.2
    let _ ← expectCh ':' r3
    pure ((p1.1 : ℚ) + (p2.1 : ℚ) / 1000))

/-- Leftmost unanchored search for \[(\d+)\.(\d+)\]:. -/
def scanUptime : List Char → Option ℚ
  | [] => none
  | c :: cs =>
    match matchUptimeAt (c :: cs) with
    | some v => some v
    | none => scanUptime cs

/-- pkg/timestamp ParseUptime: a bracketed seconds.milliseconds pair
before a colon yields a relative uptime value in seconds. -/
def ParseUptime (s : String) : Option ℚ := scanUptime s.data

/-- internal/parser ParseLine: try the four conventions in fixed order
(absolute-compact, full date-time, epoch-in-brackets,
uptime-in-brackets); the first match fills the record, and a line
matching none is retained with no timestamp and no uptime. -/
def ParseLine (tag : String) (year : Int) (line : String) (lineNum : Nat) :
    LogLine :=
  let base : LogLine :=
    { originalLine := line, tag := tag, timestamp := none,
      uptimeSec := 0, lineNumber := lineNum }
  match ParseAbsolute year line with
  | some ts => { base with timestamp := some ts }
  | none =>
    match ParseFullDateTime line with
    | some ts => { base with timestamp := some ts }
    | none =>
      match ParseLinux line with
      | some ts => { base with timestamp := some ts }
      | none =>
        match ParseUptime line with
        | some u => { base with uptimeSec := u }
        | none => base

/-- internal/interleaver parseFile: parse every text line of one file,
numbering lines from 1; every line yields a record. -/
def parseFile (tag : String) (year : Int) (content : List String) :
    List LogLine :=
  content.enum.map (fun p => ParseLine tag year p.2 (p.1 + 1))

/-- internal/parser: the transient anchor record of
ResolveUptimeTimestamps (line index, absolute time, optional paired
uptime). -/
structure AbsAnchor where
  lineNum : Nat
  time : Int
  uptime : ℚ
  hasUptime : Bool
deriving DecidableEq

/-- The anchor-pairing search of ResolveUptimeTimestamps: look backward
up to 5 lines from index i for a line with positive uptime, then
forward up to 5 lines. -/
def findUptimeNear (lines : List LogLine) (i : Nat) : Option ℚ :=
  let back := (List.range 5).findSome? (fun k =>
    if i ≥ k + 1 then
      match lines.get? (i - (k + 1)) with
      | some l => if 0 < l.uptimeSec then some l.uptimeSec else none
      | none => none
    else none)
  match back with
  | some u => some u
  | none =>
    (List.range 5).findSome? (fun k =>
      match lines.get? (i + (k + 1)) with
      | some l => if 0 < l.uptimeSec then some l.uptimeSec else none
      | none => none)

/-- First pass of ResolveUptimeTimestamps: collect every line whose
timestamp is present and of TypeAbsolute as a candidate anchor, with
its paired uptime from the ±5-line neighborhood search when found. -/
def collectAnchors (lines : List LogLine) : List AbsAnchor :=
  lines.enum.filterMap (fun p =>
    match p.2.timestamp with
    | some ts =>
      if ts.type = TsType.absolute then
        some { lineNum := p.1, time := ts.time,
               uptime := (findUptimeNear lines p.1).getD 0,
               hasUptime := (findUptimeNear lines p.1).isSome }
      else none
    | none => none)

/-- Search state of the anchor-selection loop in
ResolveUptimeTimestamps: globally nearest, nearest forward, nearest
backward anchors and their distances. -/
structure AnchorSearch where
  nearest : Option AbsAnchor
  minDist : Nat
  fwd : Option AbsAnchor
  fwdDist : Nat
  bwd : Option AbsAnchor
  bwdDist : Nat
deriving DecidableEq

/-- One iteration of the anchor-selection loop for line index i. -/
def anchorStep (i : Nat) (st : AnchorSearch) (a : AbsAnchor) : AnchorSearch :=
  let dist := ((a.lineNum : Int) - (i : Int)).natAbs
  let st :=
    if dist < st.minDist then { st with nearest := some a, minDist := dist }
    else st
  let st :=
    if a.lineNum > i && dist < st.fwdDist then
      { st with fwd := some a, fwdDist := dist }
    else st
  if a.lineNum < i && dist < st.bwdDist then
    { st with bwd := some a, bwdDist := dist }
  else st

/-- The anchor selection of ResolveUptimeTimestamps for line index i:
scan all anchors tracking nearest, forward-nearest and
backward-nearest (distances start at the number of lines n), then
prefer the forward anchor at distance ≤ 10, else the backward anchor
at distance ≤ 10, else the globally nearest one. -/
def chooseAnchor (anchors : List AbsAnchor) (i n : Nat) : Option AbsAnchor :=
  let st := anchors.foldl (anchorStep i)
    { nearest := none, minDist := n, fwd := none, fwdDist := n,
      bwd := none, bwdDist := n }
  if st.fwd.isSome && st.fwdDist ≤ 10 then st.fwd
  else if st.bwd.isSome && st.bwdDist ≤ 10 then st.bwd
  else st.nearest

/-- Go time.Duration(x * float64(time.Second)) on our rational model:
seconds to integer nanoseconds, truncating toward zero. -/
def durationOfSeconds (q : ℚ) : Int := goTrunc (q * 1000000000)

/-- Second pass of ResolveUptimeTimestamps on one line: a line carrying
only a positive raw uptime gets the chosen anchor's time plus the
uptime difference when the anchor has a paired uptime, or the anchor's
time unchanged otherwise. -/
def resolveLine (anchors : List AbsAnchor) (n i : Nat) (line : LogLine) :
    LogLine :=
  if 0 < line.uptimeSec ∧ line.timestamp = none then
    match chooseAnchor anchors i n with
    | none => line
    | some a =>
      if a.hasUptime then
        let t : Timestamp :=
          ⟨a.time + durationOfSeconds (line.uptimeSec - a.uptime),
           TsType.absolute, line.uptimeSec⟩
        { line with timestamp := some t }
      else
        let t : Timestamp := ⟨a.time, TsType.absolute, line.uptimeSec⟩
        { line with timestamp := some t }
  else line

/-- internal/parser ResolveUptimeTimestamps: collect anchors, fail when
there are none, otherwise resolve every uptime-only line. -/
def ResolveUptimeTimestamps (lines : List LogLine) :
    Except String (List LogLine) :=
  let anchors := collectAnchors lines
  if anchors.isEmpty then
    Except.error "no absolute timestamps found to resolve uptime timestamps"
  else
    Except.ok (lines.enum.map (fun p =>
      resolveLine anchors lines.length p.1 p.2))

/-- strings.HasSuffix(name, ".txt") on the character level. -/
def hasSuffixTxt (s : String) : Bool :=
  let cs := s.data
  cs.length ≥ 4 && cs.drop (cs.length - 4) = ['.', 't', 'x', 't']

/-- strings.TrimSuffix(name, ".txt"): drop the suffix when present. -/
def trimSuffixTxt (s : String) : String :=
  if hasSuffixTxt s then String.mk (s.data.take (s.data.length - 4)) else s

/-- Go map assignment m[k] = v on an association list: replace the entry
when the key is present, append otherwise. -/
def upsert {α : Type} (m : List (String × α)) (k : String) (v : α) :
    List (String × α) :=
  if m.any (fun p => p.1 = k) then
    m.map (fun p => if p.1 = k then (k, v) else p)
  else m ++ [(k, v)]

/-- The file-reading loop of Process: skip names not ending in .txt,
derive the tag by trimming the suffix, parse the file, and store its
lines under the tag (a directory is modelled as the list of its
regular files in ReadDir order, each with its text lines). -/
def buildLinesByTag (dir : List (String × List String)) (year : Int) :
    List (String × List LogLine) :=
  dir.foldl (fun acc f =>
    if hasSuffixTxt f.1 then
      upsert acc (trimSuffixTxt f.1) (parseFile (trimSuffixTxt f.1) year f.2)
    else acc) []

/-- The per-tag uptime check of Process: does any line carry a positive
raw uptime value. -/
def hasAnyUptime (lines : List LogLine) : Bool :=
  lines.any (fun l => decide (0 < l.uptimeSec))

/-- The resolution loop of Process: tags with an uptime line are run
through ResolveUptimeTimestamps; a resolution error is non-fatal and
leaves the tag's lines unchanged. -/
def resolveForTag (lines : List LogLine) : List LogLine :=
  if hasAnyUptime lines then
    match ResolveUptimeTimestamps lines with
    | Except.ok out => out
    | Except.error _ => lines
  else lines

/-- The earliest-timestamp scan used by calculateAutoOffsets (keeps the
first minimum under Before). -/
def earliestTime (lines : List LogLine) : Option Int :=
  lines.foldl (fun acc l =>
    match l.timestamp with
    | none => acc
    | some ts =>
      match acc with
      | none => some ts.time
      | some t => if ts.time < t then some ts.time else acc) none

/-- One iteration of the fallback reference-selection loop of
calculateAutoOffsets: keep the running (maximal count, candidate);
replace it only when this tag's timestamped-line count strictly
exceeds the running maximum and the tag has an earliest timestamp. -/
def refCandidateStep (st : Nat × Option (String × Int))
    (p : String × List LogLine) : Nat × Option (String × Int) :=
  let count := p.2.countP (fun l => l.timestamp.isSome)
  match earliestTime p.2 with
  | some t => if count > st.1 then (count, some (p.1, t)) else st
  | none => st

/-- Reference selection of calculateAutoOffsets: prefer the daemon tag
when it has a timestamped line, else the tag with the most timestamped
lines (first encountered wins ties), with its earliest timestamp. -/
def chooseReference (ltb : List (String × List LogLine)) :
    Option (String × Int) :=
  let daemonRef : Option (String × Int) :=
    match List.lookup "daemon" ltb with
    | some dl =>
      match earliestTime dl with
      | some t => some ("daemon", t)
      | none => none
    | none => none
  match daemonRef with
  | some r => some r
  | none =>
    (ltb.foldl refCandidateStep ((0 : Nat), (none : Option (String × Int)))).2

/-- One iteration of the offset loop of calculateAutoOffsets, with r
the chosen reference (tag, earliest time): skip tags that already have
an offset entry (the loop checks the live map, so manual entries are
skipped), skip the reference tag, and otherwise store the difference
of earliest timestamps converted to hours, rounded via Go's
float-to-int truncation of (hours + 0.5), as whole-hour nanoseconds. -/
def autoOffsetStep (r : String × Int) (acc : List (String × Int))
    (p : String × List LogLine) : List (String × Int) :=
  if (List.lookup p.1 acc).isSome then acc
  else if p.1 = r.1 then acc
  else
    match earliestTime p.2 with
    | none => acc
    | some ft =>
      let offsetHours : ℚ := ((r.2 - ft : Int) : ℚ) / 3600000000000
      let roundedHours : Int := goTrunc (offsetHours + 1/2)
      acc ++ [(p.1, roundedHours * 3600000000000)]

/-- internal/interleaver calculateAutoOffsets: choose the reference,
then run the offset loop over every tag. -/
def calculateAutoOffsets (ltb : List (String × List LogLine))
    (offsets : List (String × Int)) : List (String × Int) :=
  match chooseReference ltb with
  | none => offsets
  | some r => ltb.foldl (autoOffsetStep r) offsets

/-- The offset-application loop of Process: shift every present
timestamp of a tag's lines by the tag's offset (absent entries mean
zero, the Go map default). -/
def applyOffsets (ltb : List (String × List LogLine))
    (offsets : List (String × Int)) : List LogLine :=
  ltb.flatMap (fun p =>
    let offset := (List.lookup p.1 offsets).getD 0
    p.2.map (fun l =>
      match l.timestamp with
      | none => l
      | some ts => { l with timestamp := some ⟨ts.time + offset, ts.type, ts.uptimeSec⟩ }))

/-- The comparison closure of the final sort.Slice in Process: lines
without timestamps go last, ordered by line number among themselves;
timestamped lines are ordered by Before on their instants. -/
def mergeLess (a b : LogLine) : Bool :=
  match a.timestamp, b.timestamp with
  | none, none => a.lineNumber < b.lineNumber
  | none, some _ => false
  | some _, none => true
  | some x, some y => x.time < y.time

/-- The non-strict order induced by mergeLess; any correct sort for
sort.Slice produces a sequence pairwise ordered by it. -/
def mergeLE (a b : LogLine) : Bool := !(mergeLess b a)

/-- mergeLE as a relation, for use with the sorting library. -/
def MergeRel (a b : LogLine) : Prop := mergeLE a b = true

instance : DecidableRel MergeRel := fun a b => decEq (mergeLE a b) true

/-- Model of the final sort.Slice call: sort.Slice produces some
sequence pairwise ordered by the complement of the strict comparison;
the model fixes one such sequence via insertion sort. -/
def sortSliceModel (l : List LogLine) : List LogLine :=
  l.insertionSort MergeRel

/-- The tagged line lists of Process after parsing and per-tag uptime
resolution. -/
def taggedLines (dir : List (String × List String)) (year : Int) :
    List (String × List LogLine) :=
  (buildLinesByTag dir year).map (fun p => (p.1, resolveForTag p.2))

/-- The offset table used by Process: the configured manual offsets,
extended by calculateAutoOffsets when auto-alignment is enabled. -/
def effectiveOffsets (dir : List (String × List String))
    (offsets : List (String × Int)) (autoAlign : Bool) (year : Int) :
    List (String × Int) :=
  if autoAlign then calculateAutoOffsets (taggedLines dir year) offsets
  else offsets

/-- internal/interleaver Process: read the directory, parse each .txt
file, resolve uptimes per tag, compute auto offsets when enabled,
apply offsets and sort all lines with the merge comparison. -/
def Process (dir : List (String × List String))
    (offsets : List (String × Int)) (autoAlign : Bool) (year : Int) :
    List LogLine :=
  sortSliceModel (applyOffsets (taggedLines dir year)
    (effectiveOffsets dir offsets autoAlign year))

/-- Left-pad a natural number with zeros to the given width. -/
def padNum (width n : Nat) : String :=
  let s := toString n
  String.mk (List.replicate (width - s.length) '0') ++ s

/-- pkg/timestamp FormatTimestamp: t.Format("15:04:05.000000") in UTC —
hour, minute, second and the microsecond fraction (truncated). -/
def FormatTimestamp (ns : Int) : String :=
  let sod := ns.emod 86400000000000
  let h := (sod.ediv 3600000000000).toNat
  let m := ((sod.ediv 60000000000).emod 60).toNat
  let s := ((sod.ediv 1000000000).emod 60).toNat
  let micro := ((sod.emod 1000000000).ediv 1000).toNat
  padNum 2 h ++ ":" ++ padNum 2 m ++ ":" ++ padNum 2 s ++ "." ++ padNum 6 micro

/-- internal/interleaver FormatLine: lines without a timestamp keep
their original text; others are prefixed with the formatted time and
the tag. -/
def FormatLine (l : LogLine) : String :=
  match l.timestamp with
  | none => l.originalLine
  | some ts => FormatTimestamp ts.time ++ " " ++ l.tag ++ " " ++ l.originalLine

/-- Modelled from the spec: rounding a real-valued hour difference "to
the nearest integer hour (round-half-up)", i.e. the integer nearest to
d with halves rounding up.  Used only to compare the specified
rounding against the code's rounding. -/
def specRoundHalfUp (d : ℚ) : Int := ⌊d + 1/2⌋

/-! ## Properties of the merge comparison -/

theorem mergeLE_total (a b : LogLine) : MergeRel a b ∨ MergeRel b a := by
  unfold MergeRel mergeLE mergeLess
  rcases hx : a.timestamp with _ | x <;> rcases hy : b.timestamp with _ | y <;>
    simp <;> omega

theorem mergeLE_trans (a b c : LogLine) (h1 : MergeRel a b) (h2 : MergeRel b c) :
    MergeRel a c := by
  unfold MergeRel mergeLE mergeLess at h1 h2 ⊢
  rcases hx : a.timestamp with _ | x <;> rcases hy : b.timestamp with _ | y <;>
    rcases hz : c.timestamp with _ | z <;> simp_all <;> omega

theorem pairwise_process (dir : List (String × List String))
    (offsets : List (String × Int)) (autoAlign : Bool) (year : Int) :
    List.Pairwise MergeRel (Process dir offsets autoAlign year) := by
  haveI : IsTotal LogLine MergeRel := ⟨mergeLE_total⟩
  haveI : IsTrans LogLine MergeRel := ⟨fun a b c => mergeLE_trans a b c⟩
  exact List.sorted_insertionSort MergeRel _

/-- C1: in the sequence returned by Process, timestamped lines appear in
non-decreasing timestamp order; a line without a timestamp is never
followed by a timestamped one (so untimestamped lines come after all
timestamped lines); and untimestamped lines are ordered among
themselves by non-decreasing original line number. -/
theorem c1_merge_order (dir : List (String × List String))
    (offsets : List (String × Int)) (autoAlign : Bool) (year : Int)
    (i j : Nat) (a b : LogLine) (hij : i < j)
    (ha : (Process dir offsets autoAlign year).get? i = some a)
    (hb : (Process dir offsets autoAlign year).get? j = some b) :
    (∀ x y, a.timestamp = some x → b.timestamp = some y → x.time ≤ y.time) ∧
    (a.timestamp = none → b.timestamp = none) ∧
    (a.timestamp = none → b.timestamp = none →
      a.lineNumber ≤ b.lineNumber) := by
  have hp := pairwise_process dir offsets autoAlign year
  rw [List.pairwise_iff_get] at hp
  obtain ⟨hi, ha2⟩ := List.get?_eq_some.mp ha
  obtain ⟨hj, hb2⟩ := List.get?_eq_some.mp hb
  have hr := hp ⟨i, hi⟩ ⟨j, hj⟩ (Fin.mk_lt_mk.mpr hij)
  rw [ha2, hb2] at hr
  unfold MergeRel mergeLE mergeLess at hr
  refine ⟨fun x y hx hy => ?_, fun hx => ?_, fun hx hy => ?_⟩
  · rw [hx, hy] at hr; simpa using hr
  · rcases hy : b.timestamp with _ | y
    · rfl
    · rw [hx, hy] at hr; simp at hr
  · rw [hx, hy] at hr; simpa using hr

theorem c1_merge_order_witness : (1768122269000000000 : Int) ≤ 1768122270000000000 := by
  have h := c1_merge_order
    [("a.txt", ["2026-01-11 09:04:30 x", "2026-01-11 09:04:29 y"])] [] false 2026
    0 1
    { originalLine := "2026-01-11 09:04:29 y", tag := "a",
      timestamp := some ⟨1768122269000000000, TsType.absolute, 0⟩,
      uptimeSec := 0, lineNumber := 2 }
    { originalLine := "2026-01-11 09:04:30 x", tag := "a",
      timestamp := some ⟨1768122270000000000, TsType.absolute, 0⟩,
      uptimeSec := 0, lineNumber := 1 }
    (by decide) (by decide) (by decide)
  exact h.1 _ _ rfl rfl

/-! ## Uptime resolution -/

theorem goTrunc_den_one (q : ℚ) (h : q.den = 1) : goTrunc q = q.num := by
  have hq : ((q.num : ℚ)) = q := by
    rw [← Rat.den_eq_one_iff]; exact h
  unfold goTrunc
  split <;> conv_lhs => rw [← hq]
  · rw [Int.floor_intCast]
  · rw [Int.ceil_intCast]

theorem resolve_get? (lines out : List LogLine) (i : Nat) (l : LogLine)
    (hres : ResolveUptimeTimestamps lines = Except.ok out)
    (hl : lines.get? i = some l) :
    out.get? i = some (resolveLine (collectAnchors lines) lines.length i l) := by
  unfold ResolveUptimeTimestamps at hres
  by_cases he : (collectAnchors lines).isEmpty
  · rw [if_pos he] at hres; exact absurd hres (by simp)
  · rw [if_neg he] at hres
    have : out = lines.enum.map (fun p =>
        resolveLine (collectAnchors lines) lines.length p.1 p.2) := by
      exact (Except.ok.injEq _ _).mp hres.symm
    subst this
    rw [List.get?_map, List.enum_get?, hl]
    rfl

/-- C2: when ResolveUptimeTimestamps succeeds, a line carrying only a
positive raw uptime u whose chosen anchor has a paired uptime u_a gets
timestamp anchor.time + (u − u_a) (exactly, whenever (u − u_a) is a
whole number of nanoseconds, as it always is for parsed uptime
values); when the chosen anchor has no paired uptime the line gets the
anchor's instant itself. -/
theorem c2_resolution_formula (lines out : List LogLine) (i : Nat)
    (l : LogLine) (a : AbsAnchor)
    (hres : ResolveUptimeTimestamps lines = Except.ok out)
    (hl : lines.get? i = some l)
    (hupt : 0 < l.uptimeSec) (hts : l.timestamp = none)
    (hsel : chooseAnchor (collectAnchors lines) i lines.length = some a) :
    (a.hasUptime = true → ((l.uptimeSec - a.uptime) * 1000000000).den = 1 →
      out.get? i = some { l with timestamp := some (Timestamp.mk
        (a.time + ((l.uptimeSec - a.uptime) * 1000000000).num)
        TsType.absolute l.uptimeSec) }) ∧
    (a.hasUptime = false →
      out.get? i = some { l with timestamp := some (Timestamp.mk
        a.time TsType.absolute l.uptimeSec) }) := by
  have hg := resolve_get? lines out i l hres hl
  unfold resolveLine at hg
  rw [if_pos ⟨hupt, hts⟩, hsel] at hg
  constructor
  · intro hu hden
    simp only [hu, if_true] at hg
    rw [hg]
    unfold durationOfSeconds
    rw [goTrunc_den_one _ hden]
  · intro hu
    simp only [hu, Bool.false_eq_true, if_false] at hg
    exact hg

unseal Rat.mul Rat.add Rat.sub Rat.inv in
theorem c2_resolution_formula_witness :
    ([{ originalLine := "ptp4l[100.500]: a", tag := "t",
        timestamp := some (Timestamp.mk 1768140354000549000 TsType.absolute (201/2)),
        uptimeSec := 201/2, lineNumber := 1 },
      { originalLine := "I0111 14:05:54.000549 b", tag := "t",
        timestamp := some (Timestamp.mk 1768140354000549000 TsType.absolute 0),
        uptimeSec := 0, lineNumber := 2 },
      { originalLine := "ptp4l[103.250]: c", tag := "t",
        timestamp := some (Timestamp.mk 1768140356750549000 TsType.absolute (413/4)),
        uptimeSec := 413/4, lineNumber := 3 }] : List LogLine).get? 2 =
    some { originalLine := "ptp4l[103.250]: c", tag := "t",
           timestamp := some (Timestamp.mk 1768140356750549000 TsType.absolute (413/4)),
           uptimeSec := 413/4, lineNumber := 3 } := by
  have h := c2_resolution_formula
    (parseFile "t" 2026
      ["ptp4l[100.500]: a", "I0111 14:05:54.000549 b", "ptp4l[103.250]: c"])
    [{ originalLine := "ptp4l[100.500]: a", tag := "t",
       timestamp := some (Timestamp.mk 1768140354000549000 TsType.absolute (201/2)),
       uptimeSec := 201/2, lineNumber := 1 },
     { originalLine := "I0111 14:05:54.000549 b", tag := "t",
       timestamp := some (Timestamp.mk 1768140354000549000 TsType.absolute 0),
       uptimeSec := 0, lineNumber := 2 },
     { originalLine := "ptp4l[103.250]: c", tag := "t",
       timestamp := some (Timestamp.mk 1768140356750549000 TsType.absolute (413/4)),
       uptimeSec := 413/4, lineNumber := 3 }]
    2
    { originalLine := "ptp4l[103.250]: c", tag := "t", timestamp := none,
      uptimeSec := 413/4, lineNumber := 3 }
    (AbsAnchor.mk 1 1768140354000549000 (201/2) true)
    (by rfl) (by decide) (by decide) (by decide) (by decide)
  have h2 := h.1 rfl (by decide)
  rw [h2]
  decide

unseal Rat.mul Rat.add Rat.sub Rat.inv in
/-- C3 counterexample: in a file whose first line carries an
epoch-in-brackets timestamp (TypeLinux) and whose second line carries
an uptime value, the first line does carry a timestamp, yet the
anchor collection is empty — epoch-form lines are not collected as
candidate anchors, and resolution for the file fails. -/
theorem c3_epoch_not_anchor_counterexample :
    ((parseFile "t" 2026 ["T-BC[1768140305]: a", "x[2.000]: b"]).get? 0).bind
      (fun l => l.timestamp) =
      some (Timestamp.mk 1768140305000000000 TsType.linux 0) ∧
    collectAnchors (parseFile "t" 2026 ["T-BC[1768140305]: a", "x[2.000]: b"])
      = [] ∧
    ResolveUptimeTimestamps
      (parseFile "t" 2026 ["T-BC[1768140305]: a", "x[2.000]: b"]) =
      Except.error "no absolute timestamps found to resolve uptime timestamps" := by
  refine ⟨by decide, by decide, by rfl⟩

/-- C3 (amended): during uptime resolution, exactly the lines already
carrying a timestamp of TypeAbsolute are collected as candidate
anchors (epoch-in-brackets lines carry TypeLinux and are skipped), and
each collected anchor's paired uptime is the value found by the ±5-line
neighborhood search when one exists. -/
theorem c3_anchor_collection (lines : List LogLine) (i : Nat) (l : LogLine)
    (ts : Timestamp) (hl : lines.get? i = some l)
    (hts : l.timestamp = some ts) :
    (ts.type = TsType.absolute →
      AbsAnchor.mk i ts.time ((findUptimeNear lines i).getD 0)
        ((findUptimeNear lines i).isSome) ∈ collectAnchors lines) ∧
    (ts.type ≠ TsType.absolute → ∀ a ∈ collectAnchors lines, a.lineNum ≠ i) := by
  constructor
  · intro habs
    unfold collectAnchors
    apply List.mem_filterMap.mpr
    refine ⟨(i, l), List.mk_mem_enum_iff_get?.mpr hl, ?_⟩
    rw [hts]
    simp [habs]
  · intro hne a ha hli
    unfold collectAnchors at ha
    obtain ⟨p, hp, hf⟩ := List.mem_filterMap.mp ha
    rcases hpts : p.2.timestamp with _ | ts2 <;> rw [hpts] at hf <;>
      dsimp only at hf
    · exact absurd hf (by simp)
    · by_cases h2 : ts2.type = TsType.absolute
      · rw [if_pos h2] at hf
        injection hf with hf2
        subst hf2
        dsimp only at hli
        have hmem : lines.get? p.1 = some p.2 := by
          have hpe : (p.1, p.2) ∈ lines.enum := by simpa using hp
          exact List.mk_mem_enum_iff_get?.mp hpe
        rw [hli, hl] at hmem
        have hlp : l = p.2 := by cases hmem; rfl
        rw [← hlp, hts] at hpts
        have hts2 : ts = ts2 := by cases hpts; rfl
        exact hne (hts2 ▸ h2)
      · rw [if_neg h2] at hf
        exact absurd hf (by simp)

/-! ## Auto-alignment -/

theorem autoOffsetStep_preserves (r : String × Int)
    (acc : List (String × Int)) (p : String × List LogLine)
    (t : String) (v : Int) (h : List.lookup t acc = some v) :
    List.lookup t (autoOffsetStep r acc p) = some v := by
  unfold autoOffsetStep
  split
  · exact h
  · split
    · exact h
    · split
      · exact h
      · rw [List.lookup_append, h]; rfl

theorem lookup_single_ne {α : Type} (t k : String) (v : α) (h : t ≠ k) :
    List.lookup t [(k, v)] = none := by
  simp [List.lookup_cons, beq_iff_eq, h]
  rw [show (t == k) = false by simpa using h]

theorem autoOffsetStep_other (r : String × Int)
    (acc : List (String × Int)) (p : String × List LogLine)
    (t : String) (hne : t ≠ p.1) :
    List.lookup t (autoOffsetStep r acc p) = List.lookup t acc := by
  unfold autoOffsetStep
  split
  · rfl
  · split
    · rfl
    · split
      · rfl
      · rw [List.lookup_append, lookup_single_ne t p.1 _ hne]
        cases List.lookup t acc <;> rfl

theorem autoOffsets_fold_preserves (r : String × Int)
    (ltb : List (String × List LogLine)) (acc : List (String × Int))
    (t : String) (v : Int) (h : List.lookup t acc = some v) :
    List.lookup t (ltb.foldl (autoOffsetStep r) acc) = some v := by
  induction ltb generalizing acc with
  | nil => exact h
  | cons p rest ih =>
    rw [List.foldl_cons]
    exact ih _ (autoOffsetStep_preserves r acc p t v h)

theorem autoOffsetStep_ref (r : String × Int) (acc : List (String × Int))
    (p : String × List LogLine) :
    List.lookup r.1 (autoOffsetStep r acc p) = List.lookup r.1 acc := by
  unfold autoOffsetStep
  split
  · rfl
  · split
    · rfl
    · split
      · rfl
      · rename_i hrne _ _ _
        rw [List.lookup_append, lookup_single_ne r.1 p.1 _ (fun h => hrne h.symm)]
        cases List.lookup r.1 acc <;> rfl

theorem autoOffsets_fold_refnone (r : String × Int)
    (ltb : List (String × List LogLine)) (acc : List (String × Int))
    (h : List.lookup r.1 acc = none) :
    List.lookup r.1 (ltb.foldl (autoOffsetStep r) acc) = none := by
  induction ltb generalizing acc with
  | nil => exact h
  | cons p rest ih =>
    rw [List.foldl_cons]
    exact ih _ ((autoOffsetStep_ref r acc p).trans h)

theorem autoOffsets_fold_mem (r : String × Int)
    (ltb : List (String × List LogLine)) (acc : List (String × Int))
    (tag : String) (lns : List LogLine) (ft : Int)
    (hnodup : (ltb.map Prod.fst).Nodup)
    (hmem : (tag, lns) ∈ ltb)
    (hacc : List.lookup tag acc = none)
    (hne : tag ≠ r.1)
    (hft : earliestTime lns = some ft) :
    List.lookup tag (ltb.foldl (autoOffsetStep r) acc) =
      some (goTrunc (((r.2 - ft : Int) : ℚ) / 3600000000000 + 1/2) *
        3600000000000) := by
  induction ltb generalizing acc with
  | nil => cases hmem
  | cons p rest ih =>
    rw [List.foldl_cons]
    rcases List.mem_cons.mp hmem with heq | hrest
    · have hp : p = (tag, lns) := heq.symm
      subst hp
      have hstep : autoOffsetStep r acc (tag, lns) =
          acc ++ [(tag, goTrunc (((r.2 - ft : Int) : ℚ) / 3600000000000 + 1/2)
            * 3600000000000)] := by
        unfold autoOffsetStep
        rw [hacc]
        simp only [Option.isSome_none, Bool.false_eq_true, if_false]
        rw [if_neg hne, hft]
      rw [hstep]
      apply autoOffsets_fold_preserves
      rw [List.lookup_append, hacc]
      simp [List.lookup_cons]
    · have htag : tag ∈ rest.map Prod.fst :=
        List.mem_map.mpr ⟨(tag, lns), hrest, rfl⟩
      have hp1 : tag ≠ p.1 := by
        intro h
        exact (List.nodup_cons.mp hnodup).1 (h ▸ htag)
      exact ih _ (List.nodup_cons.mp hnodup).2 hrest
        ((autoOffsetStep_other r acc p tag hp1).trans hacc)

/-- C4 (amended): for a non-reference tag with no manual offset and an
earliest resolved timestamp, auto-alignment stores the Go truncation
toward zero of (hour difference + 1/2) as a whole-hour duration; this
agrees with round-half-up to the nearest integer hour whenever the
hour difference is non-negative (for negative differences the code
rounds toward zero instead — see the counterexample). -/
theorem c4_auto_offset_rounding (ltb : List (String × List LogLine))
    (offsets : List (String × Int)) (r : String × Int)
    (tag : String) (lns : List LogLine) (ft : Int)
    (href : chooseReference ltb = some r)
    (hnodup : (ltb.map Prod.fst).Nodup)
    (hmem : (tag, lns) ∈ ltb)
    (hman : List.lookup tag offsets = none)
    (hne : tag ≠ r.1)
    (hft : earliestTime lns = some ft) :
    List.lookup tag (calculateAutoOffsets ltb offsets) =
      some (goTrunc (((r.2 - ft : Int) : ℚ) / 3600000000000 + 1/2) *
        3600000000000) ∧
    (0 ≤ ((r.2 - ft : Int) : ℚ) / 3600000000000 →
      goTrunc (((r.2 - ft : Int) : ℚ) / 3600000000000 + 1/2) =
        specRoundHalfUp (((r.2 - ft : Int) : ℚ) / 3600000000000)) := by
  constructor
  · unfold calculateAutoOffsets
    rw [href]
    exact autoOffsets_fold_mem r ltb offsets tag lns ft hnodup hmem hman hne hft
  · intro hd
    unfold goTrunc specRoundHalfUp
    rw [if_pos (by linarith)]

unseal Rat.mul Rat.add Rat.sub Rat.inv in
/-- C4 counterexample: with the daemon file's earliest timestamp 1.6
hours before the other file's, the hour difference is −1.6; the code
stores −1 hour (truncation toward zero of −1.1), while rounding to the
nearest integer hour with half up would store −2 hours. -/
theorem c4_rounding_counterexample :
    List.lookup "b" (calculateAutoOffsets (taggedLines
      [("daemon.txt", ["2026-01-11 00:00:00 ref"]),
       ("b.txt", ["2026-01-11 01:36:00 x"])] 2026) []) =
      some (-3600000000000) ∧
    specRoundHalfUp (((1768089600000000000 - 1768095360000000000 : Int) : ℚ) /
      3600000000000) * 3600000000000 = -7200000000000 := by
  exact ⟨by decide, by decide⟩

unseal Rat.mul Rat.add Rat.sub Rat.inv in
theorem c4_auto_offset_rounding_witness :
    List.lookup "b" (calculateAutoOffsets (taggedLines
      [("daemon.txt", ["2026-01-11 12:00:00 ref"]),
       ("b.txt", ["2026-01-11 09:30:00 x"])] 2026) []) =
      some 10800000000000 ∧
    goTrunc (((1768132800000000000 - 1768123800000000000 : Int) : ℚ) /
        3600000000000 + 1/2) =
      specRoundHalfUp (((1768132800000000000 - 1768123800000000000 : Int) : ℚ) /
        3600000000000) := by
  have h := c4_auto_offset_rounding
    (taggedLines [("daemon.txt", ["2026-01-11 12:00:00 ref"]),
                  ("b.txt", ["2026-01-11 09:30:00 x"])] 2026)
    [] ("daemon", 1768132800000000000) "b"
    [{ originalLine := "2026-01-11 09:30:00 x", tag := "b",
       timestamp := some (Timestamp.mk 1768123800000000000 TsType.absolute 0),
       uptimeSec := 0, lineNumber := 1 }]
    1768123800000000000
    (by decide) (by decide) (by decide) (by decide) (by decide) (by decide)
  refine ⟨?_, h.2 (by decide)⟩
  rw [h.1]
  decide

/-- C5: auto-alignment never changes an existing (manual) offset-table
entry, and it stores no entry for the tag chosen as reference, so when
that tag has no manual entry its effective offset (Go map default
lookup) is zero. -/
theorem c5_manual_and_reference (ltb : List (String × List LogLine))
    (offsets : List (String × Int)) (r : String × Int)
    (href : chooseReference ltb = some r) :
    (∀ t v, List.lookup t offsets = some v →
      List.lookup t (calculateAutoOffsets ltb offsets) = some v) ∧
    (List.lookup r.1 offsets = none →
      List.lookup r.1 (calculateAutoOffsets ltb offsets) = none ∧
      (List.lookup r.1 (calculateAutoOffsets ltb offsets)).getD 0 = 0) := by
  constructor
  · intro t v h
    unfold calculateAutoOffsets
    rw [href]
    exact autoOffsets_fold_preserves r ltb offsets t v h
  · intro h
    have hn : List.lookup r.1 (calculateAutoOffsets ltb offsets) = none := by
      unfold calculateAutoOffsets
      rw [href]
      exact autoOffsets_fold_refnone r ltb offsets h
    exact ⟨hn, by rw [hn]; rfl⟩

unseal Rat.mul Rat.add Rat.sub Rat.inv in
theorem c5_manual_and_reference_witness :
    List.lookup "b" (calculateAutoOffsets (taggedLines
      [("daemon.txt", ["2026-01-11 12:00:00 ref"]),
       ("b.txt", ["2026-01-11 09:30:00 x"])] 2026)
      [("b", 1800000000000)]) = some 1800000000000 ∧
    (List.lookup "daemon" (calculateAutoOffsets (taggedLines
      [("daemon.txt", ["2026-01-11 12:00:00 ref"]),
       ("b.txt", ["2026-01-11 09:30:00 x"])] 2026)
      [("b", 1800000000000)])).getD 0 = 0 := by
  have h := c5_manual_and_reference
    (taggedLines [("daemon.txt", ["2026-01-11 12:00:00 ref"]),
                  ("b.txt", ["2026-01-11 09:30:00 x"])] 2026)
    [("b", 1800000000000)] ("daemon", 1768132800000000000) (by decide)
  exact ⟨h.1 "b" 1800000000000 (by decide), (h.2 (by decide)).2⟩

/-- C6: ParseLine keeps every line (original text, tag and line number
are always retained) and tries the four conventions in the fixed order
absolute-compact, full date-time, epoch-in-brackets,
uptime-in-brackets; the first convention that matches determines the
timestamp or uptime value, and when none matches the record carries no
timestamp and no uptime. -/
theorem c6_parse_priority (tag : String) (year : Int) (s : String) (n : Nat) :
    ((ParseLine tag year s n).originalLine = s ∧
     (ParseLine tag year s n).tag = tag ∧
     (ParseLine tag year s n).lineNumber = n) ∧
    (∀ ts, ParseAbsolute year s = some ts →
      (ParseLine tag year s n).timestamp = some ts ∧
      (ParseLine tag year s n).uptimeSec = 0) ∧
    (ParseAbsolute year s = none → ∀ ts, ParseFullDateTime s = some ts →
      (ParseLine tag year s n).timestamp = some ts ∧
      (ParseLine tag year s n).uptimeSec = 0) ∧
    (ParseAbsolute year s = none → ParseFullDateTime s = none →
      ∀ ts, ParseLinux s = some ts →
      (ParseLine tag year s n).timestamp = some ts ∧
      (ParseLine tag year s n).uptimeSec = 0) ∧
    (ParseAbsolute year s = none → ParseFullDateTime s = none →
      ParseLinux s = none → ∀ u, ParseUptime s = some u →
      (ParseLine tag year s n).timestamp = none ∧
      (ParseLine tag year s n).uptimeSec = u) ∧
    (ParseAbsolute year s = none → ParseFullDateTime s = none →
      ParseLinux s = none → ParseUptime s = none →
      (ParseLine tag year s n).timestamp = none ∧
      (ParseLine tag year s n).uptimeSec = 0) ∧
    (∀ content : List String,
      (parseFile tag year content).length = content.length) := by
  refine ⟨?_, ?_, ?_, ?_, ?_, ?_, ?_⟩ <;>
    first
    | (intro content; simp [parseFile])
    | (unfold ParseLine
       rcases h1 : ParseAbsolute year s with _ | t1 <;>
         rcases h2 : ParseFullDateTime s with _ | t2 <;>
           rcases h3 : ParseLinux s with _ | t3 <;>
             rcases h4 : ParseUptime s with _ | u4 <;>
               simp_all)

theorem c6_parse_priority_witness :
    (ParseLine "t" 2026 "a[5]: b[6.700]:" 7).timestamp =
      some (Timestamp.mk 5000000000 TsType.linux 0) ∧
    (ParseLine "t" 2026 "a[5]: b[6.700]:" 7).uptimeSec = 0 := by
  have h := (c6_parse_priority "t" 2026 "a[5]: b[6.700]:" 7).2.2.2.1
    (by decide) (by decide)
    (Timestamp.mk 5000000000 TsType.linux 0) (by decide)
  exact h

/-! ## Process-level plumbing -/

theorem collectAnchors_nil_of_no_ts (lines : List LogLine)
    (h : ∀ l ∈ lines, l.timestamp = none) : collectAnchors lines = [] := by
  unfold collectAnchors
  apply List.filterMap_eq_nil_iff.mpr
  intro p hp
  rw [h p.2 (List.snd_mem_of_mem_enum hp)]

theorem resolve_error_of_no_ts (lines : List LogLine)
    (h : ∀ l ∈ lines, l.timestamp = none) :
    ResolveUptimeTimestamps lines =
      Except.error "no absolute timestamps found to resolve uptime timestamps" := by
  unfold ResolveUptimeTimestamps
  rw [collectAnchors_nil_of_no_ts lines h]
  rfl

theorem resolveForTag_of_error (lines : List LogLine) (e : String)
    (h : ResolveUptimeTimestamps lines = Except.error e) :
    resolveForTag lines = lines := by
  unfold resolveForTag
  split
  · rw [h]
  · rfl

theorem upsert_not_mem {α : Type} (m : List (String × α)) (k : String) (v : α)
    (h : ∀ q ∈ m, q.1 ≠ k) : upsert m k v = m ++ [(k, v)] := by
  have hma : m.any (fun p => p.1 = k) = false := by
    rw [List.any_eq_false]
    intro q hq
    simp [h q hq]
  unfold upsert
  rw [hma]
  simp

theorem buildLinesByTag_fold_eq (dir : List (String × List String))
    (year : Int) (acc : List (String × List LogLine))
    (hdisj : ∀ f ∈ dir, hasSuffixTxt f.1 = true →
      ∀ q ∈ acc, q.1 ≠ trimSuffixTxt f.1)
    (hnodup : ((dir.filter (fun f => hasSuffixTxt f.1)).map
      (fun f => trimSuffixTxt f.1)).Nodup) :
    dir.foldl (fun acc f =>
      if hasSuffixTxt f.1 then
        upsert acc (trimSuffixTxt f.1) (parseFile (trimSuffixTxt f.1) year f.2)
      else acc) acc =
    acc ++ (dir.filter (fun f => hasSuffixTxt f.1)).map
      (fun f => (trimSuffixTxt f.1, parseFile (trimSuffixTxt f.1) year f.2)) := by
  induction dir generalizing acc with
  | nil => simp
  | cons f rest ih =>
    rw [List.foldl_cons]
    by_cases hf : hasSuffixTxt f.1 = true
    · rw [if_pos hf]
      rw [upsert_not_mem _ _ _ (hdisj f (List.mem_cons_self f rest) hf)]
      have hnodup2 : ((rest.filter (fun f => hasSuffixTxt f.1)).map
          (fun f => trimSuffixTxt f.1)).Nodup := by
        rw [List.filter_cons, if_pos hf, List.map_cons] at hnodup
        exact (List.nodup_cons.mp hnodup).2
      have hhead : trimSuffixTxt f.1 ∉ ((rest.filter (fun f => hasSuffixTxt f.1)).map
          (fun f => trimSuffixTxt f.1)) := by
        rw [List.filter_cons, if_pos hf, List.map_cons] at hnodup
        exact (List.nodup_cons.mp hnodup).1
      rw [ih _ ?_ hnodup2]
      · rw [List.filter_cons, if_pos hf, List.map_cons, List.append_assoc]
        rfl
      · intro g hg hgtxt q hq
        rcases List.mem_append.mp hq with hq1 | hq2
        · exact hdisj g (List.mem_cons_of_mem f hg) hgtxt q hq1
        · have : q = (trimSuffixTxt f.1, parseFile (trimSuffixTxt f.1) year f.2) := by
            simpa using hq2
          rw [this]
          intro hcontra
          dsimp only at hcontra
          apply hhead
          rw [hcontra]
          exact List.mem_map.mpr ⟨g, List.mem_filter.mpr ⟨hg, hgtxt⟩, rfl⟩
    · rw [if_neg hf]
      have : (f :: rest).filter (fun f => hasSuffixTxt f.1) =
          rest.filter (fun f => hasSuffixTxt f.1) := by
        rw [List.filter_cons, if_neg hf]
      rw [this] at hnodup ⊢
      exact ih acc (fun g hg hgtxt q hq =>
        hdisj g (List.mem_cons_of_mem f hg) hgtxt q hq) hnodup

theorem buildLinesByTag_eq (dir : List (String × List String)) (year : Int)
    (hnodup : ((dir.filter (fun f => hasSuffixTxt f.1)).map
      (fun f => trimSuffixTxt f.1)).Nodup) :
    buildLinesByTag dir year =
    (dir.filter (fun f => hasSuffixTxt f.1)).map
      (fun f => (trimSuffixTxt f.1, parseFile (trimSuffixTxt f.1) year f.2)) := by
  unfold buildLinesByTag
  rw [buildLinesByTag_fold_eq dir year [] (by intro f _ _ q hq; cases hq) hnodup]
  rfl

/-- C7: a .txt file whose lines carry no timestamps at all (though some
carry uptime values) makes ResolveUptimeTimestamps fail with the
reported error; Process continues, the file's lines stay unresolved,
and every one of them still appears in the final output. -/
theorem c7_no_anchor_graceful (dir : List (String × List String))
    (offsets : List (String × Int)) (autoAlign : Bool) (year : Int)
    (name : String) (content : List String)
    (hmem : (name, content) ∈ dir)
    (htxt : hasSuffixTxt name = true)
    (hnodup : ((dir.filter (fun f => hasSuffixTxt f.1)).map
      (fun f => trimSuffixTxt f.1)).Nodup)
    (hnots : ∀ l ∈ parseFile (trimSuffixTxt name) year content,
      l.timestamp = none)
    (_hupt : ∃ l ∈ parseFile (trimSuffixTxt name) year content,
      0 < l.uptimeSec) :
    ResolveUptimeTimestamps (parseFile (trimSuffixTxt name) year content) =
      Except.error "no absolute timestamps found to resolve uptime timestamps" ∧
    ∀ l ∈ parseFile (trimSuffixTxt name) year content,
      l ∈ Process dir offsets autoAlign year ∧ l.timestamp = none := by
  have herr := resolve_error_of_no_ts _ hnots
  refine ⟨herr, fun l hl => ⟨?_, hnots l hl⟩⟩
  unfold Process sortSliceModel
  apply (List.perm_insertionSort MergeRel _).mem_iff.mpr
  unfold applyOffsets
  apply List.mem_flatMap.mpr
  refine ⟨(trimSuffixTxt name, parseFile (trimSuffixTxt name) year content),
    ?_, ?_⟩
  · unfold taggedLines
    rw [buildLinesByTag_eq dir year hnodup]
    apply List.mem_map.mpr
    refine ⟨(trimSuffixTxt name, parseFile (trimSuffixTxt name) year content),
      List.mem_map.mpr ⟨(name, content),
        List.mem_filter.mpr ⟨hmem, htxt⟩, rfl⟩, ?_⟩
    dsimp only
    rw [resolveForTag_of_error _ _ herr]
  · dsimp only
    apply List.mem_map.mpr
    refine ⟨l, hl, ?_⟩
    rw [hnots l hl]

unseal Rat.mul Rat.add Rat.sub Rat.inv in
theorem c7_no_anchor_graceful_witness :
    ({ originalLine := "ptp4l[5.000]: only uptime", tag := "u",
       timestamp := none, uptimeSec := 5, lineNumber := 1 } : LogLine) ∈
      Process [("daemon.txt", ["2026-01-11 00:00:00 ref"]),
               ("u.txt", ["ptp4l[5.000]: only uptime", "plain line"])]
        [] true 2026 ∧
    ({ originalLine := "ptp4l[5.000]: only uptime", tag := "u",
       timestamp := none, uptimeSec := 5, lineNumber := 1 } : LogLine).timestamp
      = none := by
  have h := c7_no_anchor_graceful
    [("daemon.txt", ["2026-01-11 00:00:00 ref"]),
     ("u.txt", ["ptp4l[5.000]: only uptime", "plain line"])]
    [] true 2026 "u.txt" ["ptp4l[5.000]: only uptime", "plain line"]
    (by decide) (by decide) (by decide) (by decide) (by decide)
  exact h.2
    { originalLine := "ptp4l[5.000]: only uptime", tag := "u",
      timestamp := none, uptimeSec := 5, lineNumber := 1 }
    (by decide)

/-! ## Determinism of the merge -/

unseal Rat.mul Rat.add Rat.sub Rat.inv in
/-- C8 counterexample: two runs of the full pipeline on identical input
files and identical configuration can differ.  First, when the
wall-clock year read by ParseAbsolute differs between the runs (2025
versus 2026), both the output ordering and the formatted text change.
Second, even with the year fixed and no merge ties, when two tags tie
for the most timestamped lines and no daemon tag exists, the reference
chosen by auto-alignment depends on the Go map enumeration order
(modelled by the list order seen by calculateAutoOffsets), and the
asymmetric rounding turns a 1.6-hour gap into a −1-hour or +2-hour
offset, giving different outputs. -/
theorem c8_determinism_counterexample :
    ((Process [("a.txt", ["I0601 00:00:00.000000 alpha"]),
               ("b.txt", ["2026-01-11 09:04:29 beta"])] [] false 2025).map
        (fun l => l.originalLine) ≠
      (Process [("a.txt", ["I0601 00:00:00.000000 alpha"]),
                ("b.txt", ["2026-01-11 09:04:29 beta"])] [] false 2026).map
        (fun l => l.originalLine) ∧
    (Process [("a.txt", ["I0601 00:00:00.000000 alpha"]),
              ("b.txt", ["2026-01-11 09:04:29 beta"])] [] false 2025).map
        FormatLine ≠
      (Process [("a.txt", ["I0601 00:00:00.000000 alpha"]),
                ("b.txt", ["2026-01-11 09:04:29 beta"])] [] false 2026).map
        FormatLine) ∧
    (sortSliceModel (applyOffsets
        (taggedLines [("a.txt", ["2026-01-11 00:00:00 pa"]),
                      ("b.txt", ["2026-01-11 01:36:00 pb"])] 2026)
        (calculateAutoOffsets
          (taggedLines [("a.txt", ["2026-01-11 00:00:00 pa"]),
                        ("b.txt", ["2026-01-11 01:36:00 pb"])] 2026) []))).map
        FormatLine ≠
      (sortSliceModel (applyOffsets
        (taggedLines [("a.txt", ["2026-01-11 00:00:00 pa"]),
                      ("b.txt", ["2026-01-11 01:36:00 pb"])] 2026)
        (calculateAutoOffsets
          (taggedLines [("a.txt", ["2026-01-11 00:00:00 pa"]),
                        ("b.txt", ["2026-01-11 01:36:00 pb"])] 2026).reverse
          []))).map FormatLine := by
  exact ⟨⟨by decide, by decide⟩, by decide⟩

theorem sorted_perm_eq {α : Type} (r : α → α → Prop) (l1 : List α) :
    ∀ (l2 : List α), l1.Perm l2 → l1.Pairwise r → l2.Pairwise r →
    (∀ a ∈ l1, ∀ b ∈ l1, r a b → r b a → a = b) → l1 = l2 := by
  induction l1 with
  | nil =>
    intro l2 h _ _ _
    exact (h.symm.eq_nil).symm
  | cons a t1 ih =>
    intro l2 h s1 s2 anti
    rcases l2 with _ | ⟨b, t2⟩
    · exact absurd h.eq_nil (by simp)
    · by_cases hab : a = b
      · subst hab
        have ht := h.cons_inv
        have heq : t1 = t2 := by
          apply ih t2 ht (List.pairwise_cons.mp s1).2 (List.pairwise_cons.mp s2).2
          intro x hx y hy hxy hyx
          exact anti x (List.mem_cons_of_mem a hx) y (List.mem_cons_of_mem a hy)
            hxy hyx
        rw [heq]
      · have ha2 : a ∈ b :: t2 := h.subset (List.mem_cons_self a t1)
        have hat2 : a ∈ t2 := by
          rcases List.mem_cons.mp ha2 with h1 | h1
          · exact absurd h1 hab
          · exact h1
        have hb1 : b ∈ a :: t1 := h.symm.subset (List.mem_cons_self b t2)
        have hbt1 : b ∈ t1 := by
          rcases List.mem_cons.mp hb1 with h1 | h1
          · exact absurd h1.symm hab
          · exact h1
        have hrba : r b a := (List.pairwise_cons.mp s2).1 a hat2
        have hrab : r a b := (List.pairwise_cons.mp s1).1 b hbt1
        exact absurd (anti a (List.mem_cons_self a t1) b
          (List.mem_cons_of_mem a hbt1) hrab hrba) hab

theorem lookup_some_mem {α : Type} (l : List (String × α)) (k : String)
    (v : α) (h : List.lookup k l = some v) : (k, v) ∈ l := by
  induction l with
  | nil => simp [List.lookup] at h
  | cons p rest ih =>
    rw [List.lookup_cons] at h
    by_cases hk : k = p.1
    · rw [show (k == p.1) = true by simpa using hk] at h
      dsimp only at h
      cases h
      rw [hk]
      exact List.mem_cons_self p rest
    · rw [show (k == p.1) = false by simpa using hk] at h
      dsimp only at h
      exact List.mem_cons_of_mem p (ih h)

theorem lookup_none_iff {α : Type} (l : List (String × α)) (k : String) :
    List.lookup k l = none ↔ k ∉ l.map Prod.fst := by
  induction l with
  | nil => simp [List.lookup]
  | cons p rest ih =>
    rw [List.lookup_cons]
    by_cases hk : k = p.1
    · rw [show (k == p.1) = true by simpa using hk]
      simp [hk]
    · rw [show (k == p.1) = false by simpa using hk]
      simp only [List.map_cons, List.mem_cons]
      constructor
      · intro h hc
        rcases hc with hc | hc
        · exact hk hc
        · exact (ih.mp h) hc
      · intro h
        exact ih.mpr (fun hc => h (Or.inr hc))

theorem mem_lookup_some {α : Type} (l : List (String × α)) (k : String)
    (v : α) (hnd : (l.map Prod.fst).Nodup) (hm : (k, v) ∈ l) :
    List.lookup k l = some v := by
  induction l with
  | nil => cases hm
  | cons p rest ih =>
    rw [List.map_cons] at hnd
    have hnd2 := List.nodup_cons.mp hnd
    rw [List.lookup_cons]
    rcases List.mem_cons.mp hm with heq | hrest
    · rw [show (k == p.1) = true by simp [← heq]]
      dsimp only
      rw [← heq]
    · have hk : k ≠ p.1 := by
        intro hc
        apply hnd2.1
        rw [← hc]
        exact List.mem_map.mpr ⟨(k, v), hrest, rfl⟩
      rw [show (k == p.1) = false by simpa using hk]
      dsimp only
      exact ih hnd2.2 hrest

theorem lookup_perm_eq {α : Type} (l1 l2 : List (String × α))
    (hp : l1.Perm l2) (hnd : (l1.map Prod.fst).Nodup) (k : String) :
    List.lookup k l1 = List.lookup k l2 := by
  have hnd2 : (l2.map Prod.fst).Nodup := (hp.map Prod.fst).nodup hnd
  rcases h1 : List.lookup k l1 with _ | v
  · rcases h2 : List.lookup k l2 with _ | w
    · rfl
    · exfalso
      apply (lookup_none_iff l1 k).mp h1
      exact List.mem_map.mpr
        ⟨(k, w), hp.symm.subset (lookup_some_mem l2 k w h2), rfl⟩
  · exact ((mem_lookup_some l2 k v hnd2 (hp.subset (lookup_some_mem l1 k v h1)))).symm

theorem earliestTime_all_none (lines : List LogLine)
    (h : ∀ l ∈ lines, l.timestamp = none) : earliestTime lines = none := by
  unfold earliestTime
  induction lines with
  | nil => rfl
  | cons l rest ih =>
    rw [List.foldl_cons, h l (List.mem_cons_self l rest)]
    exact ih (fun x hx => h x (List.mem_cons_of_mem l hx))

theorem countP_pos_of_earliest_some (lines : List LogLine) (t : Int)
    (h : earliestTime lines = some t) :
    0 < lines.countP (fun l => l.timestamp.isSome) := by
  by_contra hc
  have hz : lines.countP (fun l => l.timestamp.isSome) = 0 := by omega
  have hall : ∀ l ∈ lines, l.timestamp = none := by
    intro l hl
    have := (List.countP_eq_zero.mp hz) l hl
    rcases hts : l.timestamp with _ | ts
    · rfl
    · rw [hts] at this; simp at this
  rw [earliestTime_all_none lines hall] at h
  cases h

theorem refFold_absorb (pm : String × List LogLine)
    (x : Option (String × Int)) (l : List (String × List LogLine))
    (hq : ∀ q ∈ l, q = pm ∨ q.2.countP (fun ln => ln.timestamp.isSome) <
      pm.2.countP (fun ln => ln.timestamp.isSome)) :
    l.foldl refCandidateStep
      (pm.2.countP (fun ln => ln.timestamp.isSome), x) =
    (pm.2.countP (fun ln => ln.timestamp.isSome), x) := by
  induction l with
  | nil => rfl
  | cons q rest ih =>
    rw [List.foldl_cons]
    have hstep : refCandidateStep
        (pm.2.countP (fun ln => ln.timestamp.isSome), x) q =
        (pm.2.countP (fun ln => ln.timestamp.isSome), x) := by
      unfold refCandidateStep
      rcases hE : earliestTime q.2 with _ | t
      · rfl
      · dsimp only
        rcases hq q (List.mem_cons_self q rest) with heq | hlt
        · rw [heq, if_neg (by omega)]
        · rw [if_neg (by omega)]
    rw [hstep]
    exact ih (fun q hqr => hq q (List.mem_cons_of_mem _ hqr))

theorem refFold_unique_max (pm : String × List LogLine) (ft : Int)
    (l : List (String × List LogLine)) :
    ∀ st : Nat × Option (String × Int), pm ∈ l →
    earliestTime pm.2 = some ft →
    (∀ q ∈ l, q = pm ∨ q.2.countP (fun ln => ln.timestamp.isSome) <
      pm.2.countP (fun ln => ln.timestamp.isSome)) →
    st.1 < pm.2.countP (fun ln => ln.timestamp.isSome) →
    l.foldl refCandidateStep st =
      (pm.2.countP (fun ln => ln.timestamp.isSome), some (pm.1, ft)) := by
  induction l with
  | nil => intro st hm; cases hm
  | cons q rest ih =>
    intro st hm hft hq hlt
    rw [List.foldl_cons]
    by_cases heq : q = pm
    · subst heq
      have hstep : refCandidateStep st q =
          (q.2.countP (fun ln => ln.timestamp.isSome), some (q.1, ft)) := by
        unfold refCandidateStep
        rw [hft]
        dsimp only
        rw [if_pos (by omega)]
      rw [hstep]
      exact refFold_absorb q _ rest
        (fun p hp => hq p (List.mem_cons_of_mem _ hp))
    · have hm2 : pm ∈ rest := by
        rcases List.mem_cons.mp hm with hc | hc
        · exact absurd hc.symm heq
        · exact hc
      have hcnt : q.2.countP (fun ln => ln.timestamp.isSome) <
          pm.2.countP (fun ln => ln.timestamp.isSome) := by
        rcases hq q (List.mem_cons_self q rest) with hc | hc
        · exact absurd hc heq
        · exact hc
      have hst : (refCandidateStep st q).1 <
          pm.2.countP (fun ln => ln.timestamp.isSome) := by
        unfold refCandidateStep
        rcases hE : earliestTime q.2 with _ | t
        · exact hlt
        · dsimp only
          split
          · exact hcnt
          · exact hlt
      exact ih _ hm2 hft (fun p hp => hq p (List.mem_cons_of_mem _ hp)) hst

theorem chooseReference_unique_max (ltb : List (String × List LogLine))
    (pm : String × List LogLine) (ft : Int)
    (hm : pm ∈ ltb) (hft : earliestTime pm.2 = some ft)
    (hmax : ∀ q ∈ ltb, q ≠ pm →
      q.2.countP (fun ln => ln.timestamp.isSome) <
        pm.2.countP (fun ln => ln.timestamp.isSome))
    (hdm : ∀ dl, List.lookup "daemon" ltb = some dl →
      earliestTime dl = none) :
    chooseReference ltb = some (pm.1, ft) := by
  have hfold := refFold_unique_max pm ft ltb
    ((0 : Nat), (none : Option (String × Int))) hm hft
    (fun q hq => (em (q = pm)).imp id (fun hne => hmax q hq hne))
    (countP_pos_of_earliest_some pm.2 ft hft)
  unfold chooseReference
  rcases hdl : List.lookup "daemon" ltb with _ | dl
  · dsimp only
    rw [hfold]
  · dsimp only
    rw [hdm dl hdl]
    dsimp only
    rw [hfold]

theorem chooseReference_perm (ltb1 ltb2 : List (String × List LogLine))
    (hp : ltb1.Perm ltb2) (hnd : (ltb1.map Prod.fst).Nodup)
    (H : (∃ dl t, List.lookup "daemon" ltb1 = some dl ∧
          earliestTime dl = some t) ∨
         (∃ pm ∈ ltb1, ∃ ft, earliestTime pm.2 = some ft ∧
          ∀ q ∈ ltb1, q ≠ pm →
            q.2.countP (fun ln => ln.timestamp.isSome) <
              pm.2.countP (fun ln => ln.timestamp.isSome))) :
    chooseReference ltb1 = chooseReference ltb2 := by
  have hlk := lookup_perm_eq ltb1 ltb2 hp hnd "daemon"
  rcases hdl : List.lookup "daemon" ltb1 with _ | dl
  · have hdl2 : List.lookup "daemon" ltb2 = none := by rw [← hlk, hdl]
    rcases H with ⟨dl, t, hsome, _⟩ | ⟨pm, hm, ft, hft, hmax⟩
    · rw [hdl] at hsome; cases hsome
    · rw [chooseReference_unique_max ltb1 pm ft hm hft hmax
        (fun d hd => by rw [hdl] at hd; cases hd),
        chooseReference_unique_max ltb2 pm ft (hp.subset hm) hft
        (fun q hq => hmax q (hp.symm.subset hq))
        (fun d hd => by rw [hdl2] at hd; cases hd)]
  · have hdl2 : List.lookup "daemon" ltb2 = some dl := by rw [← hlk, hdl]
    rcases hE : earliestTime dl with _ | t
    · rcases H with ⟨dl2, t, hsome, hE2⟩ | ⟨pm, hm, ft, hft, hmax⟩
      · rw [hdl] at hsome
        cases hsome
        rw [hE] at hE2
        cases hE2
      · rw [chooseReference_unique_max ltb1 pm ft hm hft hmax
          (fun d hd => by rw [hdl] at hd; cases hd; exact hE),
          chooseReference_unique_max ltb2 pm ft (hp.subset hm) hft
          (fun q hq => hmax q (hp.symm.subset hq))
          (fun d hd => by rw [hdl2] at hd; cases hd; exact hE)]
    · unfold chooseReference
      rw [hdl, hdl2]
      dsimp only
      rw [hE]

theorem autoOffsetStep_noft (r : String × Int) (acc : List (String × Int))
    (p : String × List LogLine) (h : earliestTime p.2 = none) :
    autoOffsetStep r acc p = acc := by
  unfold autoOffsetStep
  split
  · rfl
  · split
    · rfl
    · rw [h]

theorem autoOffsets_fold_absent (r : String × Int)
    (ltb : List (String × List LogLine)) (acc : List (String × Int))
    (t : String) (h : ∀ p ∈ ltb, p.1 = t → earliestTime p.2 = none) :
    List.lookup t (ltb.foldl (autoOffsetStep r) acc) = List.lookup t acc := by
  induction ltb generalizing acc with
  | nil => rfl
  | cons p rest ih =>
    rw [List.foldl_cons]
    have hstep : List.lookup t (autoOffsetStep r acc p) = List.lookup t acc := by
      by_cases hpt : p.1 = t
      · rw [autoOffsetStep_noft r acc p (h p (List.mem_cons_self p rest) hpt)]
      · exact autoOffsetStep_other r acc p t (fun hc => hpt hc.symm)
    rw [ih _ (fun q hq => h q (List.mem_cons_of_mem p hq))]
    exact hstep

theorem autoOffsets_fold_lookup_perm (r : String × Int)
    (ltb1 ltb2 : List (String × List LogLine))
    (offsets : List (String × Int)) (hp : ltb1.Perm ltb2)
    (hnd : (ltb1.map Prod.fst).Nodup) (t : String) :
    List.lookup t (ltb1.foldl (autoOffsetStep r) offsets) =
    List.lookup t (ltb2.foldl (autoOffsetStep r) offsets) := by
  have hnd2 : (ltb2.map Prod.fst).Nodup := (hp.map Prod.fst).nodup hnd
  rcases hlo : List.lookup t offsets with _ | v
  · by_cases hr : t = r.1
    · subst hr
      rw [autoOffsets_fold_refnone r ltb1 offsets hlo,
          autoOffsets_fold_refnone r ltb2 offsets hlo]
    · by_cases hex : ∃ lns, (t, lns) ∈ ltb1 ∧ ∃ ft, earliestTime lns = some ft
      · obtain ⟨lns, hm, ft, hft⟩ := hex
        rw [autoOffsets_fold_mem r ltb1 offsets t lns ft hnd hm hlo hr hft,
            autoOffsets_fold_mem r ltb2 offsets t lns ft hnd2
              (hp.subset hm) hlo hr hft]
      · push_neg at hex
        have habs1 : ∀ p ∈ ltb1, p.1 = t → earliestTime p.2 = none := by
          intro p hm hpt
          rcases hE : earliestTime p.2 with _ | ft
          · rfl
          · exact absurd hE (hex p.2 (by rw [← hpt]; exact hm) ft)
        rw [autoOffsets_fold_absent r ltb1 offsets t habs1,
            autoOffsets_fold_absent r ltb2 offsets t
              (fun p hm hpt => habs1 p (hp.symm.subset hm) hpt)]
  · rw [autoOffsets_fold_preserves r ltb1 offsets t v hlo,
        autoOffsets_fold_preserves r ltb2 offsets t v hlo]

theorem applyOffsets_congr (ltb : List (String × List LogLine))
    (t1 t2 : List (String × Int))
    (h : ∀ t, List.lookup t t2 = List.lookup t t1) :
    applyOffsets ltb t2 = applyOffsets ltb t1 := by
  unfold applyOffsets
  apply List.flatMap_congr
  intro p _
  simp only [h p.1]

unseal Rat.mul Rat.add Rat.sub Rat.inv in
/-- C8 (amended): with the wall-clock year fixed, the pipeline is a
deterministic function of the input files and the configured offsets:
a run whose three Go-map iterations (the reference selection of
auto-alignment, its offset loop, and the final concatenation) observe
any enumeration orders ltbR, ltbO, ltbC of the tag map produces
exactly the canonical Process output and formatted text, provided no
two distinct lines are tied under the merge comparison and — when
auto-alignment is enabled — the reference choice is unambiguous (the
daemon tag has a timestamped line, or a single tag strictly maximizes
the timestamped-line count); runs observing different years, or a
reference tie, can differ (see the counterexample). -/
theorem c8_pipeline_determinism (dir : List (String × List String))
    (offsets : List (String × Int)) (autoAlign : Bool) (year : Int)
    (ltbR ltbO ltbC : List (String × List LogLine))
    (hpR : (taggedLines dir year).Perm ltbR)
    (hpO : (taggedLines dir year).Perm ltbO)
    (hpC : (taggedLines dir year).Perm ltbC)
    (hnd : ((taggedLines dir year).map Prod.fst).Nodup)
    (href : autoAlign = true →
      (∃ dl t, List.lookup "daemon" (taggedLines dir year) = some dl ∧
        earliestTime dl = some t) ∨
      (∃ pm ∈ taggedLines dir year, ∃ ft, earliestTime pm.2 = some ft ∧
        ∀ q ∈ taggedLines dir year, q ≠ pm →
          q.2.countP (fun ln => ln.timestamp.isSome) <
            pm.2.countP (fun ln => ln.timestamp.isSome)))
    (htie : ∀ a ∈ applyOffsets (taggedLines dir year)
        (effectiveOffsets dir offsets autoAlign year),
      ∀ b ∈ applyOffsets (taggedLines dir year)
        (effectiveOffsets dir offsets autoAlign year),
      MergeRel a b → MergeRel b a → a = b) :
    sortSliceModel (applyOffsets ltbC
        (if autoAlign then
          match chooseReference ltbR with
          | none => offsets
          | some r => ltbO.foldl (autoOffsetStep r) offsets
        else offsets)) =
      Process dir offsets autoAlign year ∧
    (sortSliceModel (applyOffsets ltbC
        (if autoAlign then
          match chooseReference ltbR with
          | none => offsets
          | some r => ltbO.foldl (autoOffsetStep r) offsets
        else offsets))).map FormatLine =
      (Process dir offsets autoAlign year).map FormatLine := by
  haveI : IsTotal LogLine MergeRel := ⟨mergeLE_total⟩
  haveI : IsTrans LogLine MergeRel := ⟨fun a b c => mergeLE_trans a b c⟩
  have htab : ∀ t, List.lookup t
      (if autoAlign then
        match chooseReference ltbR with
        | none => offsets
        | some r => ltbO.foldl (autoOffsetStep r) offsets
      else offsets) =
      List.lookup t (effectiveOffsets dir offsets autoAlign year) := by
    intro t
    unfold effectiveOffsets
    cases autoAlign with
    | false => rfl
    | true =>
      simp only [if_true]
      have hcr : chooseReference ltbR =
          chooseReference (taggedLines dir year) :=
        (chooseReference_perm (taggedLines dir year) ltbR hpR hnd
          (href rfl)).symm
      rw [hcr]
      unfold calculateAutoOffsets
      rcases hc : chooseReference (taggedLines dir year) with _ | r
      · rfl
      · exact (autoOffsets_fold_lookup_perm r (taggedLines dir year) ltbO
          offsets hpO hnd t).symm
  have happ : applyOffsets ltbC
      (if autoAlign then
        match chooseReference ltbR with
        | none => offsets
        | some r => ltbO.foldl (autoOffsetStep r) offsets
      else offsets) =
      applyOffsets ltbC (effectiveOffsets dir offsets autoAlign year) :=
    applyOffsets_congr ltbC _ _ htab
  have hA : (applyOffsets ltbC
      (effectiveOffsets dir offsets autoAlign year)).Perm
      (applyOffsets (taggedLines dir year)
        (effectiveOffsets dir offsets autoAlign year)) := by
    unfold applyOffsets
    exact List.Perm.flatMap_right _ hpC.symm
  have hs2 : (sortSliceModel (applyOffsets ltbC
      (effectiveOffsets dir offsets autoAlign year))).Perm
      (sortSliceModel (applyOffsets (taggedLines dir year)
        (effectiveOffsets dir offsets autoAlign year))) := by
    unfold sortSliceModel
    exact ((List.perm_insertionSort MergeRel _).trans hA).trans
      (List.perm_insertionSort MergeRel _).symm
  have hmain : sortSliceModel (applyOffsets ltbC
      (effectiveOffsets dir offsets autoAlign year)) =
      sortSliceModel (applyOffsets (taggedLines dir year)
        (effectiveOffsets dir offsets autoAlign year)) := by
    apply sorted_perm_eq MergeRel _ _ hs2
      (List.sorted_insertionSort MergeRel _)
      (List.sorted_insertionSort MergeRel _)
    intro a ha b hb hab hba
    have hmemA : a ∈ applyOffsets (taggedLines dir year)
        (effectiveOffsets dir offsets autoAlign year) :=
      (List.perm_insertionSort MergeRel _).mem_iff.mp (hs2.mem_iff.mp ha)
    have hmemB : b ∈ applyOffsets (taggedLines dir year)
        (effectiveOffsets dir offsets autoAlign year) :=
      (List.perm_insertionSort MergeRel _).mem_iff.mp (hs2.mem_iff.mp hb)
    exact htie a hmemA b hmemB hab hba
  rw [happ, hmain]
  exact ⟨rfl, rfl⟩

unseal Rat.mul Rat.add Rat.sub Rat.inv in
theorem c8_pipeline_determinism_witness :
    sortSliceModel (applyOffsets
      [("daemon", [{ originalLine := "2026-01-11 08:04:29 ref", tag := "daemon", timestamp := some (Timestamp.mk 1768118669000000000 TsType.absolute 0), uptimeSec := 0, lineNumber := 1 }]),
       ("b", [{ originalLine := "2026-01-11 09:04:29 beta", tag := "b", timestamp := some (Timestamp.mk 1768122269000000000 TsType.absolute 0), uptimeSec := 0, lineNumber := 1 }])]
      (if true then
        match chooseReference
          [("daemon", [{ originalLine := "2026-01-11 08:04:29 ref", tag := "daemon", timestamp := some (Timestamp.mk 1768118669000000000 TsType.absolute 0), uptimeSec := 0, lineNumber := 1 }]),
           ("b", [{ originalLine := "2026-01-11 09:04:29 beta", tag := "b", timestamp := some (Timestamp.mk 1768122269000000000 TsType.absolute 0), uptimeSec := 0, lineNumber := 1 }])] with
        | none => ([] : List (String × Int))
        | some r =>
          List.foldl (autoOffsetStep r) ([] : List (String × Int))
            [("daemon", [{ originalLine := "2026-01-11 08:04:29 ref", tag := "daemon", timestamp := some (Timestamp.mk 1768118669000000000 TsType.absolute 0), uptimeSec := 0, lineNumber := 1 }]),
             ("b", [{ originalLine := "2026-01-11 09:04:29 beta", tag := "b", timestamp := some (Timestamp.mk 1768122269000000000 TsType.absolute 0), uptimeSec := 0, lineNumber := 1 }])]
      else ([] : List (String × Int)))) =
      Process [("b.txt", ["2026-01-11 09:04:29 beta"]),
               ("daemon.txt", ["2026-01-11 08:04:29 ref"])] [] true 2026 := by
  have h := c8_pipeline_determinism
    [("b.txt", ["2026-01-11 09:04:29 beta"]),
     ("daemon.txt", ["2026-01-11 08:04:29 ref"])] [] true 2026
    [("daemon", [{ originalLine := "2026-01-11 08:04:29 ref", tag := "daemon", timestamp := some (Timestamp.mk 1768118669000000000 TsType.absolute 0), uptimeSec := 0, lineNumber := 1 }]),
     ("b", [{ originalLine := "2026-01-11 09:04:29 beta", tag := "b", timestamp := some (Timestamp.mk 1768122269000000000 TsType.absolute 0), uptimeSec := 0, lineNumber := 1 }])]
    [("daemon", [{ originalLine := "2026-01-11 08:04:29 ref", tag := "daemon", timestamp := some (Timestamp.mk 1768118669000000000 TsType.absolute 0), uptimeSec := 0, lineNumber := 1 }]),
     ("b", [{ originalLine := "2026-01-11 09:04:29 beta", tag := "b", timestamp := some (Timestamp.mk 1768122269000000000 TsType.absolute 0), uptimeSec := 0, lineNumber := 1 }])]
    [("daemon", [{ originalLine := "2026-01-11 08:04:29 ref", tag := "daemon", timestamp := some (Timestamp.mk 1768118669000000000 TsType.absolute 0), uptimeSec := 0, lineNumber := 1 }]),
     ("b", [{ originalLine := "2026-01-11 09:04:29 beta", tag := "b", timestamp := some (Timestamp.mk 1768122269000000000 TsType.absolute 0), uptimeSec := 0, lineNumber := 1 }])]
    (by decide) (by decide) (by decide) (by decide)
    (fun _ => Or.inl ⟨[{ originalLine := "2026-01-11 08:04:29 ref", tag := "daemon", timestamp := some (Timestamp.mk 1768118669000000000 TsType.absolute 0), uptimeSec := 0, lineNumber := 1 }], 1768118669000000000, by decide, by decide⟩)
    (by decide)
  exact h.1

/-! ## What Process reads and tags -/

theorem ParseLine_skel (tag : String) (year : Int) (s : String) (n : Nat) :
    ((ParseLine tag year s n).tag, (ParseLine tag year s n).originalLine,
      (ParseLine tag year s n).lineNumber) = (tag, s, n) := by
  unfold ParseLine
  cases ParseAbsolute year s <;> cases ParseFullDateTime s <;>
    cases ParseLinux s <;> cases ParseUptime s <;> rfl

theorem parseFile_skel (tag : String) (year : Int) (content : List String) :
    (parseFile tag year content).map
      (fun l => (l.tag, l.originalLine, l.lineNumber)) =
    content.enum.map (fun p => (tag, p.2, p.1 + 1)) := by
  unfold parseFile
  rw [List.map_map]
  apply List.map_congr_left
  intro p _
  exact ParseLine_skel tag year p.2 (p.1 + 1)

theorem resolveLine_skel (anchors : List AbsAnchor) (n i : Nat) (l : LogLine) :
    ((resolveLine anchors n i l).tag, (resolveLine anchors n i l).originalLine,
      (resolveLine anchors n i l).lineNumber) =
    (l.tag, l.originalLine, l.lineNumber) := by
  unfold resolveLine
  split
  · split
    · rfl
    · split <;> rfl
  · rfl

theorem resolve_skel (lines out : List LogLine)
    (h : ResolveUptimeTimestamps lines = Except.ok out) :
    out.map (fun l => (l.tag, l.originalLine, l.lineNumber)) =
    lines.map (fun l => (l.tag, l.originalLine, l.lineNumber)) := by
  unfold ResolveUptimeTimestamps at h
  by_cases he : (collectAnchors lines).isEmpty
  · rw [if_pos he] at h; exact absurd h (by simp)
  · rw [if_neg he] at h
    have hout : out = lines.enum.map (fun p =>
        resolveLine (collectAnchors lines) lines.length p.1 p.2) :=
      ((Except.ok.injEq _ _).mp h).symm
    subst hout
    rw [List.map_map]
    have hpt : ∀ p ∈ lines.enum,
        ((fun l => (l.tag, l.originalLine, l.lineNumber)) ∘
          (fun p : Nat × LogLine =>
            resolveLine (collectAnchors lines) lines.length p.1 p.2)) p =
        (fun p : Nat × LogLine => (p.2.tag, p.2.originalLine, p.2.lineNumber)) p :=
      fun p _ => resolveLine_skel (collectAnchors lines) lines.length p.1 p.2
    rw [List.map_congr_left hpt]
    have : (fun p : Nat × LogLine => (p.2.tag, p.2.originalLine, p.2.lineNumber)) =
        (fun l : LogLine => (l.tag, l.originalLine, l.lineNumber)) ∘ Prod.snd :=
      rfl
    rw [this, ← List.map_map, List.enum_map_snd]

theorem resolveForTag_skel (lines : List LogLine) :
    (resolveForTag lines).map (fun l => (l.tag, l.originalLine, l.lineNumber)) =
    lines.map (fun l => (l.tag, l.originalLine, l.lineNumber)) := by
  unfold resolveForTag
  split
  · cases hres : ResolveUptimeTimestamps lines with
    | ok out => simp only [hres]; exact resolve_skel lines out hres
    | error e => simp only [hres]
  · rfl

/-- C9 (amended): with distinct tags, the lines returned by Process
are, as a multiset of (tag, original text, line number) triples,
exactly the lines of the directory's .txt files, each tagged with its
file name minus the .txt suffix and numbered from 1; files with any
other extension are skipped and contribute nothing. -/
theorem c9_txt_files_only (dir : List (String × List String))
    (offsets : List (String × Int)) (autoAlign : Bool) (year : Int)
    (hnodup : ((dir.filter (fun f => hasSuffixTxt f.1)).map
      (fun f => trimSuffixTxt f.1)).Nodup) :
    ((Process dir offsets autoAlign year).map
        (fun l => (l.tag, l.originalLine, l.lineNumber))).Perm
      ((dir.filter (fun f => hasSuffixTxt f.1)).flatMap
        (fun f => f.2.enum.map (fun p => (trimSuffixTxt f.1, p.2, p.1 + 1)))) := by
  have h1 : ((Process dir offsets autoAlign year).map
      (fun l => (l.tag, l.originalLine, l.lineNumber))).Perm
      ((applyOffsets (taggedLines dir year)
        (effectiveOffsets dir offsets autoAlign year)).map
        (fun l => (l.tag, l.originalLine, l.lineNumber))) :=
    List.Perm.map _ (List.perm_insertionSort MergeRel _)
  have h2 : (applyOffsets (taggedLines dir year)
      (effectiveOffsets dir offsets autoAlign year)).map
      (fun l => (l.tag, l.originalLine, l.lineNumber)) =
      (dir.filter (fun f => hasSuffixTxt f.1)).flatMap
        (fun f => f.2.enum.map (fun p => (trimSuffixTxt f.1, p.2, p.1 + 1))) := by
    unfold applyOffsets
    rw [List.map_flatMap]
    unfold taggedLines
    rw [buildLinesByTag_eq dir year hnodup, List.map_map, List.flatMap_map]
    apply List.flatMap_congr
    intro f _
    dsimp only [Function.comp]
    rw [List.map_map]
    trans (resolveForTag (parseFile (trimSuffixTxt f.1) year f.2)).map
      (fun l => (l.tag, l.originalLine, l.lineNumber))
    · apply List.map_congr_left
      intro l _
      rcases l with ⟨o, t, ts, u, ln⟩
      cases ts <;> rfl
    · rw [resolveForTag_skel, parseFile_skel]
  rw [← h2]
  exact h1

/-- C9 counterexample: a regular file whose name does not end in .txt
is not read at all — a directory holding only "a.log" with one line
produces an empty output, although the claim requires that line to
appear tagged "a". -/
theorem c9_extension_counterexample :
    Process [("a.log", ["hello"])] [] true 2026 = [] ∧
    Process [("a.log", ["hello"])] [] false 2026 = [] := by
  exact ⟨by decide, by decide⟩

theorem c9_txt_files_only_witness :
    ((Process [("a.txt", ["x"]), ("b.log", ["y"])] [] false 2026).map
        (fun l => (l.tag, l.originalLine, l.lineNumber))).Perm
      [("a", "x", 1)] := by
  have h := c9_txt_files_only [("a.txt", ["x"]), ("b.log", ["y"])] [] false 2026
    (by decide)
  exact h

/-! ## Zero uptime values are inert -/

theorem findUptimeNear_pos (lines : List LogLine) (i : Nat) (u : ℚ)
    (h : findUptimeNear lines i = some u) : 0 < u := by
  unfold findUptimeNear at h
  have hcase : ∀ (k : Nat) (v : Option ℚ),
      (match lines.get? k with
        | some l => if 0 < l.uptimeSec then some l.uptimeSec else none
        | none => none) = some u → 0 < u := by
    intro k v hk
    rcases hg : lines.get? k with _ | l <;> rw [hg] at hk <;> dsimp only at hk
    · exact absurd hk (by simp)
    · by_cases hu : 0 < l.uptimeSec
      · rw [if_pos hu] at hk
        cases hk
        exact hu
      · rw [if_neg hu] at hk
        exact absurd hk (by simp)
  rcases hb : (List.range 5).findSome? (fun k =>
      if i ≥ k + 1 then
        match lines.get? (i - (k + 1)) with
        | some l => if 0 < l.uptimeSec then some l.uptimeSec else none
        | none => none
      else none) with _ | v
  · rw [hb] at h
    obtain ⟨k, _, hk⟩ := List.exists_of_findSome?_eq_some h
    exact hcase (i + (k + 1)) none hk
  · rw [hb] at h
    cases h
    obtain ⟨k, _, hk⟩ := List.exists_of_findSome?_eq_some hb
    by_cases hik : i ≥ k + 1
    · rw [if_pos hik] at hk
      exact hcase (i - (k + 1)) none hk
    · rw [if_neg hik] at hk
      exact absurd hk (by simp)

/-- C10: a line whose bracketed uptime field parses to exactly 0 (and
which matches no earlier convention) is stored with uptime 0 and no
timestamp, and the pipeline treats it as carrying no uptime at all: it
is never given a timestamp by resolution, an anchor's paired uptime is
always strictly positive (so never this line's 0), and a file whose
lines all have non-positive stored uptime never triggers resolution. -/
theorem c10_zero_uptime_inert (s tag : String) (year : Int) (n : Nat)
    (lines : List LogLine) (i : Nat) (l : LogLine)
    (habs : ParseAbsolute year s = none) (hfull : ParseFullDateTime s = none)
    (hlinux : ParseLinux s = none) (hupt : ParseUptime s = some 0) :
    ((ParseLine tag year s n).uptimeSec = 0 ∧
     (ParseLine tag year s n).timestamp = none) ∧
    (lines.get? i = some l → l.uptimeSec = 0 →
      ∀ out, ResolveUptimeTimestamps lines = Except.ok out →
        out.get? i = some l) ∧
    (∀ a ∈ collectAnchors lines, a.hasUptime = true → 0 < a.uptime) ∧
    ((∀ l2 ∈ lines, ¬ 0 < l2.uptimeSec) → resolveForTag lines = lines) := by
  refine ⟨?_, ?_, ?_, ?_⟩
  · unfold ParseLine
    rw [habs, hfull, hlinux, hupt]
    exact ⟨rfl, rfl⟩
  · intro hl hzero out hres
    have hg := resolve_get? lines out i l hres hl
    unfold resolveLine at hg
    rw [if_neg (by rw [hzero]; simp)] at hg
    exact hg
  · intro a ha hhas
    unfold collectAnchors at ha
    obtain ⟨p, _, hf⟩ := List.mem_filterMap.mp ha
    rcases hpts : p.2.timestamp with _ | ts2 <;> rw [hpts] at hf <;>
      dsimp only at hf
    · exact absurd hf (by simp)
    · by_cases h2 : ts2.type = TsType.absolute
      · rw [if_pos h2] at hf
        injection hf with hf2
        subst hf2
        dsimp only at hhas
        rcases hfind : findUptimeNear lines p.1 with _ | u
        · rw [hfind] at hhas
          exact absurd hhas (by simp)
        · exact findUptimeNear_pos lines p.1 u hfind
      · rw [if_neg h2] at hf
        exact absurd hf (by simp)
  · intro hall
    have hfalse : hasAnyUptime lines = false := by
      unfold hasAnyUptime
      rw [List.any_eq_false]
      intro x hx
      simpa using hall x hx
    unfold resolveForTag
    simp [hfalse]

unseal Rat.mul Rat.add Rat.sub Rat.inv in
theorem c10_zero_uptime_inert_witness :
    ((ParseLine "t" 2026 "proc[0.000]:" 1).uptimeSec = 0 ∧
     (ParseLine "t" 2026 "proc[0.000]:" 1).timestamp = none) ∧
    resolveForTag (parseFile "t" 2026 ["proc[0.000]:"]) =
      parseFile "t" 2026 ["proc[0.000]:"] := by
  have h := c10_zero_uptime_inert "proc[0.000]:" "t" 2026 1
    (parseFile "t" 2026 ["proc[0.000]:"]) 0
    { originalLine := "proc[0.000]:", tag := "t", timestamp := none,
      uptimeSec := 0, lineNumber := 1 }
    (by decide) (by decide) (by decide) (by decide)
  exact ⟨h.1, h.2.2.2 (by decide)⟩

unseal Rat.mul Rat.add Rat.sub Rat.inv in
theorem c3_anchor_collection_witness :
    AbsAnchor.mk 0 1768140354000549000 2 true ∈
      collectAnchors (parseFile "t" 2026
        ["I0111 14:05:54.000549 b", "x[2.000]: c"]) := by
  have h := (c3_anchor_collection
    (parseFile "t" 2026 ["I0111 14:05:54.000549 b", "x[2.000]: c"]) 0
    { originalLine := "I0111 14:05:54.000549 b", tag := "t",
      timestamp := some (Timestamp.mk 1768140354000549000 TsType.absolute 0),
      uptimeSec := 0, lineNumber := 1 }
    (Timestamp.mk 1768140354000549000 TsType.absolute 0)
    (by decide) (by decide)).1 rfl
  have he : AbsAnchor.mk 0 1768140354000549000
      ((findUptimeNear (parseFile "t" 2026
        ["I0111 14:05:54.000549 b", "x[2.000]: c"]) 0).getD 0)
      ((findUptimeNear (parseFile "t" 2026
        ["I0111 14:05:54.000549 b", "x[2.000]: c"]) 0).isSome) =
      AbsAnchor.mk 0 1768140354000549000 2 true := by decide
  rw [← he]
  exact h
